import Mathlib

/-!
Shallow embedding of `src/ringbuf/ringbuf.c`, a file-backed MPMC ring buffer.

The companion header `ringbuf.h` is not present in the tree; the data type and
inline functions it declares (`struct ringbuf`, `ringbuf_nb_entries`,
`ringbuf_nb_free`, `ringbuf_enqueue`, `ringbuf_dequeue`) are modelled from the
specification, as noted on each such definition.  File-system and mmap effects
are modelled by explicit outcome flags; machine integers are `Nat` with an
explicit `% 2^32` wherever the C code truncates a wider value to `unsigned`.
-/

/-- Modelled from the spec: the header of `struct ringbuf` (declared in the
missing `ringbuf.h`); per the on-disk layout of the spec it is six 32-bit
fields, hence a header size of 24 bytes.  `mmapped_size` is runtime-only and
ignored on disk. -/
structure Header where
  nb_words : Nat
  mmapped_size : Nat
  prod_head : Nat
  prod_tail : Nat
  cons_head : Nat
  cons_tail : Nat
  deriving DecidableEq

/-- Modelled from the spec: sizeof(struct ringbuf), six u32 fields. -/
def headerSize : Nat := 24

/-- 2^32, the modulus of C `unsigned` / `uint32_t` arithmetic. -/
def u32Mod : Nat := 4294967296

/-- A candidate backing file: its leading bytes parsed as a `Header`, and its
total length in bytes (the 64-bit value lseek SEEK_END returns). -/
structure RbFile where
  header : Header
  length : Nat
  deriving DecidableEq

/-- Result of `ringbuf_load`: a usable handle (the header of the mapped region
as it stands after the load), a clean NULL return, or the undefined behaviour
of storing through a null pointer.  The last is reached when the sanity checks
fail: the code munmaps the region, sets `rb = NULL`, and then still executes
`rb->mmapped_size = file_length` (ringbuf.c line 130 runs unconditionally). -/
inductive LoadResult where
  | ok (h : Header)
  | fail
  | nullDeref
  deriving DecidableEq

def LoadResult.isOk : LoadResult → Bool
  | .ok _ => true
  | .fail => false
  | .nullDeref => false

/-- Embedding of `ringbuf_load` (ringbuf.c lines 91-140).  `openOk` and `mapOk`
abstract the outcomes of `open` and `mmap`; the file supplies the lseek length
and the header read through the mapping.  `check_header_eq` receives both of
its operands as C `unsigned`, so both sides of the file-size comparison are
reduced mod 2^32; the four counter checks are strict `<` against `nb_words`. -/
def ringbuf_load (openOk mapOk : Bool) (f : RbFile) : LoadResult :=
  if openOk = false then .fail
  else if f.length ≤ headerSize then .fail
  else if mapOk = false then .fail
  else if (f.header.nb_words * 4 + headerSize) % u32Mod = f.length % u32Mod
          ∧ f.header.prod_head < f.header.nb_words
          ∧ f.header.prod_tail < f.header.nb_words
          ∧ f.header.cons_head < f.header.nb_words
          ∧ f.header.cons_tail < f.header.nb_words
  then .ok { f.header with mmapped_size := f.length % u32Mod }
  else .nullDeref

/-- State of the path after a call to `ringbuf_create`: the pre-existing file
still in place (`oldFile`, when `unlink` failed), nothing (`absent`), or the
newly created file together with its size, the number of header bytes that were
successfully written (24 means fully initialized), and the header value the
code tried to write. -/
inductive PathState where
  | oldFile
  | absent
  | newFile (size : Nat) (hdrWritten : Nat) (hdr : Header)
  deriving DecidableEq

/-- Outcomes of the file-system calls made by `ringbuf_create`: whether a file
pre-exists at the path, whether `unlink` succeeds, whether
`open(O_CREAT|O_EXCL)` succeeds given that the path is free, whether
`ftruncate` succeeds, and the return value of `write` (`none` for an error,
`some w` for `w` bytes written; a write never writes more than the 24 bytes
asked for). -/
structure CreateEnv where
  pathHasFile : Bool
  unlinkOk : Bool
  openOk : Bool
  ftruncOk : Bool
  writeRes : Option Nat
  deriving DecidableEq

/-- Embedding of `ringbuf_create` (ringbuf.c lines 25-71).  A failed `unlink`
is only reported, execution continues; `open` with O_EXCL necessarily fails if
the old file is still present.  `junk` is the uninitialized stack value that
ends up in the `mmapped_size` field of the written header.  Returns the C
result (0 or -1) together with the final state of the path. -/
def ringbuf_create (env : CreateEnv) (tot_words junk : Nat) : Int × PathState :=
  let afterUnlink : PathState :=
    if env.pathHasFile = true ∧ env.unlinkOk = false then .oldFile else .absent
  if afterUnlink = PathState.oldFile ∨ env.openOk = false then (-1, afterUnlink)
  else
    let hdr : Header :=
      { nb_words := tot_words, mmapped_size := junk,
        prod_head := 0, prod_tail := 0, cons_head := 0, cons_tail := 0 }
    let fileLen := headerSize + tot_words * 4
    if env.ftruncOk = false then (-1, .newFile 0 0 hdr)
    else
      match env.writeRes with
      | none => (-1, .newFile fileLen 0 hdr)
      | some w =>
        if w < 24 then (-1, .newFile fileLen w hdr)
        else (0, .newFile fileLen 24 hdr)

/-- A file whose header announces nb_words = 2 (so the expected size is 32
bytes) but whose actual length is 28 bytes: it passes the too-small check and
fails the file-size sanity check. -/
def mismatchedFile : RbFile :=
  { header := { nb_words := 2, mmapped_size := 0, prod_head := 0, prod_tail := 0,
                cons_head := 0, cons_tail := 0 },
    length := 28 }

/-- A file of length 2^32 + 28 whose header says nb_words = 1: the exact
64-bit length differs from the expected 28 bytes, but both agree mod 2^32. -/
def oversizedFile : RbFile :=
  { header := { nb_words := 1, mmapped_size := 0, prod_head := 0, prod_tail := 0,
                cons_head := 0, cons_tail := 0 },
    length := 4294967324 }

/-- Same 2^32 + 28 byte file with a different junk value in the on-disk
`mmapped_size` field. -/
def oversizedFile7 : RbFile :=
  { header := { nb_words := 1, mmapped_size := 5, prod_head := 0, prod_tail := 0,
                cons_head := 0, cons_tail := 0 },
    length := 4294967324 }

/-- A 28-byte file with nb_words = 1 and zero counters: it passes every
sanity check. -/
def validFile : RbFile :=
  { header := { nb_words := 1, mmapped_size := 9, prod_head := 0, prod_tail := 0,
                cons_head := 0, cons_tail := 0 },
    length := 28 }

/-- The header `ringbuf_load` hands back when attaching `validFile`. -/
def loadedHeader : Header :=
  { nb_words := 1, mmapped_size := 28, prod_head := 0, prod_tail := 0,
    cons_head := 0, cons_tail := 0 }

/-- C1: on a file that opens and maps but fails the header sanity checks,
`ringbuf_load` does not return NULL: after releasing the mapping and setting
`rb` to NULL it still executes `rb->mmapped_size = file_length`, a store
through a null pointer. -/
theorem ringbuf_load_invalid_header_null_deref :
    ringbuf_load true true mismatchedFile = .nullDeref := by
  decide

/-- C2 counterexample: a file of 64-bit length 2^32 + 28 with nb_words = 1 is
accepted by `ringbuf_load` although its exact length is not
sizeof(header) + nb_words * 4 = 28: the size comparison truncates both sides
to 32 bits. -/
theorem ringbuf_load_truncation_counterexample :
    (ringbuf_load true true oversizedFile).isOk = true
      ∧ oversizedFile.length ≠ oversizedFile.header.nb_words * 4 + headerSize := by
  constructor
  · decide
  · decide

/-- C2 (amended): `ringbuf_load` returns a usable handle if and only if the
file can be opened and mapped, its length is strictly greater than the header
size, the file length and sizeof(header) + nb_words * 4 agree modulo 2^32
(both sides of the comparison are truncated to C `unsigned`), and each of the
four counters is strictly less than `nb_words`. -/
theorem ringbuf_load_ok_iff (openOk mapOk : Bool) (f : RbFile) :
    (ringbuf_load openOk mapOk f).isOk = true ↔
      (openOk = true ∧ mapOk = true ∧ headerSize < f.length
        ∧ (f.header.nb_words * 4 + headerSize) % u32Mod = f.length % u32Mod
        ∧ f.header.prod_head < f.header.nb_words
        ∧ f.header.prod_tail < f.header.nb_words
        ∧ f.header.cons_head < f.header.nb_words
        ∧ f.header.cons_tail < f.header.nb_words) := by
  unfold ringbuf_load
  cases openOk <;> cases mapOk <;>
    simp [LoadResult.isOk] <;>
    split_ifs <;>
    simp_all [LoadResult.isOk]

/-- C7 counterexample: attaching the 2^32 + 28 byte file succeeds, and the
handle's `mmapped_size` is 28 — the mapping size truncated to 32 bits — not
the mapping size 4294967324 itself. -/
theorem ringbuf_load_mapped_size_truncated :
    ringbuf_load true true oversizedFile7
        = .ok { nb_words := 1, mmapped_size := 28, prod_head := 0, prod_tail := 0,
                cons_head := 0, cons_tail := 0 }
      ∧ (28 : Nat) ≠ oversizedFile7.length := by
  constructor
  · decide
  · decide

/-- C7 (amended): whenever `ringbuf_load` returns a handle, the handle differs
from the on-disk header only in `mmapped_size`, which is set to the mapping
size reduced mod 2^32 (equal to the mapping size whenever the file is smaller
than 4 GiB); and the value the `mmapped_size` field holds on disk is never
read by validation: replacing it by anything leaves the outcome of the attach
unchanged. -/
theorem ringbuf_load_frame (openOk mapOk : Bool) (f : RbFile) (h : Header) (v : Nat) :
    (ringbuf_load openOk mapOk f = .ok h →
        h.nb_words = f.header.nb_words ∧ h.prod_head = f.header.prod_head
          ∧ h.prod_tail = f.header.prod_tail ∧ h.cons_head = f.header.cons_head
          ∧ h.cons_tail = f.header.cons_tail ∧ h.mmapped_size = f.length % u32Mod)
    ∧ (ringbuf_load openOk mapOk { f with header := { f.header with mmapped_size := v } }).isOk
        = (ringbuf_load openOk mapOk f).isOk := by
  constructor
  · intro hok
    unfold ringbuf_load at hok
    split_ifs at hok
    cases hok
    simp
  · unfold ringbuf_load
    cases openOk <;> cases mapOk <;> simp [LoadResult.isOk] <;> split_ifs <;>
      simp_all [LoadResult.isOk]

/-- C7 witness: instantiates the frame theorem on the concrete `validFile`,
whose attach succeeds and produces `loadedHeader`. -/
theorem ringbuf_load_frame_witness :
    (loadedHeader.nb_words = validFile.header.nb_words
      ∧ loadedHeader.prod_head = validFile.header.prod_head
      ∧ loadedHeader.prod_tail = validFile.header.prod_tail
      ∧ loadedHeader.cons_head = validFile.header.cons_head
      ∧ loadedHeader.cons_tail = validFile.header.cons_tail
      ∧ loadedHeader.mmapped_size = validFile.length % u32Mod)
    ∧ (ringbuf_load true true
        { validFile with header := { validFile.header with mmapped_size := 77 } }).isOk
      = (ringbuf_load true true validFile).isOk :=
  ⟨(ringbuf_load_frame true true validFile loadedHeader 77).1 (by decide),
   (ringbuf_load_frame true true validFile loadedHeader 77).2⟩

/-- C3: whenever `ringbuf_create` returns 0, the path holds a fully written
new file of size exactly sizeof(header) + nb_words * 4, whose header records
the requested capacity in `nb_words` and zero in all four counters (its
`mmapped_size` holds whatever the uninitialized stack value was). -/
theorem ringbuf_create_success_layout (env : CreateEnv) (n junk : Nat)
    (h : (ringbuf_create env n junk).1 = 0) :
    (ringbuf_create env n junk).2
      = .newFile (headerSize + n * 4) 24
          { nb_words := n, mmapped_size := junk,
            prod_head := 0, prod_tail := 0, cons_head := 0, cons_tail := 0 } := by
  rcases env with ⟨pf, uo, oo, fo, wr⟩
  unfold ringbuf_create at h ⊢
  rcases wr with _ | w <;>
    cases pf <;> cases uo <;> cases oo <;> cases fo <;>
    simp_all <;> split_ifs at h ⊢ <;> simp_all

/-- C3 witness: a create in which every file-system call succeeds and the
write is complete, at capacity 5 with junk value 3. -/
theorem ringbuf_create_success_layout_witness :
    (ringbuf_create ⟨false, true, true, true, some 24⟩ 5 3).2
      = .newFile (headerSize + 5 * 4) 24
          { nb_words := 5, mmapped_size := 3,
            prod_head := 0, prod_tail := 0, cons_head := 0, cons_tail := 0 } :=
  ringbuf_create_success_layout ⟨false, true, true, true, some 24⟩ 5 3 (by decide)

/-- C8: `ringbuf_create` returns 0 exactly when the new file could be created
(the path was free after the unlink and `open` succeeded), sized (`ftruncate`
succeeded), and its header fully written (`write` wrote all 24 header bytes);
its result is always either 0 or -1, and on success the path holds the fresh,
fully laid-out buffer file, replacing whatever file was there before. -/
theorem ringbuf_create_result_characterization (env : CreateEnv) (n junk : Nat) :
    ((ringbuf_create env n junk).1 = 0 ↔
        ((env.pathHasFile = false ∨ env.unlinkOk = true) ∧ env.openOk = true
          ∧ env.ftruncOk = true ∧ ∃ w, env.writeRes = some w ∧ 24 ≤ w))
    ∧ ((ringbuf_create env n junk).1 = 0 ∨ (ringbuf_create env n junk).1 = -1)
    ∧ ((ringbuf_create env n junk).1 = 0 →
        (ringbuf_create env n junk).2
          = .newFile (headerSize + n * 4) 24
              { nb_words := n, mmapped_size := junk,
                prod_head := 0, prod_tail := 0, cons_head := 0, cons_tail := 0 }) := by
  rcases env with ⟨pf, uo, oo, fo, wr⟩
  unfold ringbuf_create
  rcases wr with _ | w <;>
    cases pf <;> cases uo <;> cases oo <;> cases fo <;>
    simp_all <;> split_ifs <;> simp_all <;> omega

/-- C8 witness: with a pre-existing file, a successful unlink, open, ftruncate
and a complete 24-byte write, the result is 0 and the path holds the new
fully-initialized file. -/
theorem ringbuf_create_result_characterization_witness :
    (ringbuf_create ⟨true, true, true, true, some 24⟩ 2 7).1 = 0
      ∧ (ringbuf_create ⟨true, true, true, true, some 24⟩ 2 7).2
          = .newFile (headerSize + 2 * 4) 24
              { nb_words := 2, mmapped_size := 7,
                prod_head := 0, prod_tail := 0, cons_head := 0, cons_tail := 0 } := by
  have H := ringbuf_create_result_characterization ⟨true, true, true, true, some 24⟩ 2 7
  have h0 : (ringbuf_create ⟨true, true, true, true, some 24⟩ 2 7).1 = 0 :=
    H.1.mpr ⟨Or.inr rfl, rfl, rfl, 24, rfl, by decide⟩
  exact ⟨h0, H.2.2 h0⟩

/-- C9: creating a buffer of capacity 0 succeeds (when the file-system calls
succeed) and yields a file of exactly the header size, 24 bytes; but no file
of length at most the header size can ever be attached: `ringbuf_load` fails
on every such file. -/
theorem ringbuf_create_zero_capacity_unattachable (env : CreateEnv) (junk : Nat)
    (openOk mapOk : Bool) (f : RbFile)
    (h1 : env.pathHasFile = false ∨ env.unlinkOk = true)
    (h2 : env.openOk = true) (h3 : env.ftruncOk = true) (h4 : env.writeRes = some 24)
    (h5 : f.length ≤ headerSize) :
    (ringbuf_create env 0 junk).1 = 0
      ∧ (ringbuf_create env 0 junk).2
          = .newFile headerSize 24
              { nb_words := 0, mmapped_size := junk,
                prod_head := 0, prod_tail := 0, cons_head := 0, cons_tail := 0 }
      ∧ (ringbuf_load openOk mapOk f).isOk = false := by
  rcases env with ⟨pf, uo, oo, fo, wr⟩
  refine ⟨?_, ?_, ?_⟩
  · unfold ringbuf_create
    cases pf <;> cases uo <;> simp_all
  · unfold ringbuf_create
    cases pf <;> cases uo <;> simp_all
  · unfold ringbuf_load
    cases openOk <;> simp [LoadResult.isOk] <;> split_ifs <;>
      simp_all [LoadResult.isOk]

/-- C9 witness: capacity-0 create with an all-success environment, and the
24-byte file it produces (parsed back with nb_words = 0) is rejected by
attach. -/
theorem ringbuf_create_zero_capacity_unattachable_witness :
    (ringbuf_create ⟨false, true, true, true, some 24⟩ 0 6).1 = 0
      ∧ (ringbuf_create ⟨false, true, true, true, some 24⟩ 0 6).2
          = .newFile headerSize 24
              { nb_words := 0, mmapped_size := 6,
                prod_head := 0, prod_tail := 0, cons_head := 0, cons_tail := 0 }
      ∧ (ringbuf_load true true
          { header := { nb_words := 0, mmapped_size := 6, prod_head := 0,
                        prod_tail := 0, cons_head := 0, cons_tail := 0 },
            length := 24 }).isOk = false :=
  ringbuf_create_zero_capacity_unattachable ⟨false, true, true, true, some 24⟩ 6 true true
    { header := { nb_words := 0, mmapped_size := 6, prod_head := 0,
                  prod_tail := 0, cons_head := 0, cons_tail := 0 },
      length := 24 }
    (Or.inl rfl) rfl rfl rfl (by decide)

/-- C10: `ringbuf_create` unlinks the old file first, so once the unlink
succeeded no outcome leaves the original file in place; and when the result is
-1, either the new file had already been opened (the path was free and `open`
succeeded) and an incompletely initialized file — fewer than 24 header bytes
written — remains at the path, or `open` itself failed and the path is left in
its post-unlink state with no new file. -/
theorem ringbuf_create_not_atomic (env : CreateEnv) (n junk : Nat) :
    (env.pathHasFile = true → env.unlinkOk = true →
        (ringbuf_create env n junk).2 ≠ .oldFile)
    ∧ ((ringbuf_create env n junk).1 = -1 →
        if (env.pathHasFile = false ∨ env.unlinkOk = true) ∧ env.openOk = true then
          ∃ sz w h, (ringbuf_create env n junk).2 = .newFile sz w h ∧ w < 24
        else
          ((ringbuf_create env n junk).2 = .oldFile
            ∨ (ringbuf_create env n junk).2 = .absent)) := by
  rcases env with ⟨pf, uo, oo, fo, wr⟩
  unfold ringbuf_create
  rcases wr with _ | w <;>
    cases pf <;> cases uo <;> cases oo <;> cases fo <;>
    simp_all <;>
    first
      | omega
      | exact ⟨0, 0, ⟨rfl, rfl⟩, by omega⟩
      | exact ⟨headerSize + n * 4, 0, ⟨rfl, rfl⟩, by omega⟩
      | (split_ifs with hw <;> simp_all <;>
          first
            | omega
            | exact ⟨headerSize + n * 4, w, ⟨rfl, rfl⟩, hw⟩)

/-- C10 witness: pre-existing file, unlink and open succeed, ftruncate fails:
the original file is gone and an incompletely initialized new file (0 header
bytes written) remains at the path. -/
theorem ringbuf_create_not_atomic_witness :
    (ringbuf_create ⟨true, true, true, false, some 24⟩ 1 3).2 ≠ .oldFile
      ∧ ∃ sz w h,
          (ringbuf_create ⟨true, true, true, false, some 24⟩ 1 3).2
            = .newFile sz w h ∧ w < 24 := by
  have H := ringbuf_create_not_atomic ⟨true, true, true, false, some 24⟩ 1 3
  refine ⟨H.1 rfl rfl, ?_⟩
  have h2 := H.2 (by decide)
  simpa using h2

/-- Wrap sentinel: a length word of UINT32_MAX marks the abandoned tail of the
data area. -/
def sentinel : Nat := 4294967295

/-- Modelled from the spec: the in-memory ring buffer that the inline
functions of the missing `ringbuf.h` operate on — the header counters plus
the data area of `nb_words` 32-bit words. -/
structure Ringbuf where
  nb_words : Nat
  prod_head : Nat
  prod_tail : Nat
  cons_head : Nat
  cons_tail : Nat
  data : List Nat
  deriving DecidableEq

/-- A freshly created and attached buffer: all four counters zero and a
zero-filled data area of `nb_words` words. -/
def freshRingbuf (nb_words : Nat) : Ringbuf :=
  { nb_words := nb_words, prod_head := 0, prod_tail := 0,
    cons_head := 0, cons_tail := 0, data := List.replicate nb_words 0 }

/-- Store the words `ws` into the data area `d` starting at index `i`. -/
def writeWords (d : List Nat) (i : Nat) (ws : List Nat) : List Nat :=
  match ws with
  | [] => d
  | w :: rest => writeWords (d.set i w) (i + 1) rest

/-- Read `len` words from the data area `d` starting at index `i`. -/
def readWords (d : List Nat) (i len : Nat) : List Nat :=
  match len with
  | 0 => []
  | l + 1 => d.getD i 0 :: readWords d (i + 1) l

/-- Modelled from the spec: `ringbuf_nb_entries` (declared in the missing
`ringbuf.h`), the number of readable words:
(prod_tail - cons_head) mod nb_words. -/
def ringbuf_nb_entries (nb_words prod_tail cons_head : Nat) : Nat :=
  (((prod_tail : Int) - (cons_head : Int)) % (nb_words : Int)).toNat

/-- Modelled from the spec: `ringbuf_nb_free` (declared in the missing
`ringbuf.h`), the number of words a producer may still reserve:
(cons_tail - prod_head - 1) mod nb_words. -/
def ringbuf_nb_free (nb_words prod_head cons_tail : Nat) : Nat :=
  (((cons_tail : Int) - (prod_head : Int) - 1) % (nb_words : Int)).toNat

/-- Producer error. -/
inductive EnqueueError where
  | NOT_ENOUGH_SPACE
  deriving DecidableEq

/-- Consumer error. -/
inductive DequeueError where
  | EMPTY
  deriving DecidableEq

/-- Modelled from the spec: `ringbuf_enqueue` (declared in the missing
`ringbuf.h`), the full producer transaction of section 4.1.3, executed in
isolation (the CAS succeeds and the commit follows immediately).  Snapshot the
head and the consumer tail; fail with NOT_ENOUGH_SPACE when fewer than
`L + 1` free words remain; otherwise reserve either contiguously or, when the
run to the end of the area is too short but enough room remains after skipping
to index 0, with a wrap — marking the abandoned position with the `sentinel`
length word; store the length word followed by the payload; publish by moving
`prod_tail` to the new head.  A failure mutates nothing. -/
def ringbuf_enqueue (rb : Ringbuf) (msg : List Nat) : Except EnqueueError Ringbuf :=
  let L := msg.length
  let free := ringbuf_nb_free rb.nb_words rb.prod_head rb.cons_tail
  if free < L + 1 then .error .NOT_ENOUGH_SPACE
  else if rb.prod_head + L + 1 ≤ rb.nb_words then
    let ph := (rb.prod_head + L + 1) % rb.nb_words
    .ok { rb with prod_head := ph, prod_tail := ph,
                  data := writeWords rb.data rb.prod_head (L :: msg) }
  else if L + 1 ≤ free - (rb.nb_words - rb.prod_head) then
    .ok { rb with prod_head := L + 1, prod_tail := L + 1,
                  data := writeWords (rb.data.set rb.prod_head sentinel) 0 (L :: msg) }
  else .error .NOT_ENOUGH_SPACE

/-- Modelled from the spec: `ringbuf_dequeue` (declared in the missing
`ringbuf.h`), the full consumer transaction of section 4.1.4, executed in
isolation, with a destination buffer large enough for any message.  Fail with
EMPTY when `cons_head` has caught up with `prod_tail`; on reading the
`sentinel` length word jump to index 0 (reporting EMPTY if that is where
`prod_tail` stands); otherwise read the length word and the payload behind it
and publish the release by moving `cons_tail` to one past the payload. -/
def ringbuf_dequeue (rb : Ringbuf) : Except DequeueError (Ringbuf × List Nat) :=
  if rb.cons_head = rb.prod_tail then .error .EMPTY
  else
    let first := rb.data.getD rb.cons_head 0
    if first = sentinel then
      if rb.prod_tail = 0 then .error .EMPTY
      else
        let len := rb.data.getD 0 0
        let ch := len + 1
        .ok ({ rb with cons_head := ch, cons_tail := ch }, readWords rb.data 1 len)
    else
      let ch := (rb.cons_head + first + 1) % rb.nb_words
      .ok ({ rb with cons_head := ch, cons_tail := ch },
           readWords rb.data (rb.cons_head + 1) first)

/-- Enqueue a list of messages in order, stopping at the first failure. -/
def enqueueAll (rb : Ringbuf) : List (List Nat) → Except EnqueueError Ringbuf
  | [] => .ok rb
  | m :: rest =>
    match ringbuf_enqueue rb m with
    | .ok rb2 => enqueueAll rb2 rest
    | .error e => .error e

/-- Dequeue `k` messages in order, stopping at the first failure. -/
def dequeueAll (rb : Ringbuf) : Nat → Except DequeueError (List (List Nat))
  | 0 => .ok []
  | k + 1 =>
    match ringbuf_dequeue rb with
    | .ok (rb2, m) =>
      match dequeueAll rb2 k with
      | .ok ms => .ok (m :: ms)
      | .error e => .error e
    | .error e => .error e

/-- Enqueue every message of `msgs` on a fresh buffer of capacity `nb_words`,
then dequeue as many messages as were enqueued. -/
def roundTrip (nb_words : Nat) (msgs : List (List Nat)) :
    Except DequeueError (List (List Nat)) :=
  match enqueueAll (freshRingbuf nb_words) msgs with
  | .ok rb => dequeueAll rb msgs.length
  | .error _ => .error .EMPTY

/-- The data-area image of a message sequence: each message contributes its
length word followed by its payload words. -/
def encodeMsgs : List (List Nat) → List Nat
  | [] => []
  | m :: rest => (m.length :: m) ++ encodeMsgs rest

/-- Integer form of the free/used accounting: for counters at rest the two
modular distances around the ring sum to the capacity minus the one reserved
word. -/
theorem emod_ring_identity (N a b : Int) (hN : 0 < N)
    (ha0 : 0 ≤ a) (haN : a < N) (hb0 : 0 ≤ b) (hbN : b < N) :
    (a - b) % N + (b - a - 1) % N + 1 = N := by
  rcases le_or_lt b a with h | h
  · have e1 : (a - b) % N = a - b := Int.emod_eq_of_lt (by omega) (by omega)
    have e2 : (b - a - 1) % N = b - a - 1 + N := by
      have h3 : (b - a - 1 + N * 1) % N = (b - a - 1) % N :=
        Int.add_mul_emod_self_left _ _ _
      rw [mul_one] at h3
      rw [← h3]
      exact Int.emod_eq_of_lt (by omega) (by omega)
    omega
  · have e1 : (a - b) % N = a - b + N := by
      have h3 : (a - b + N * 1) % N = (a - b) % N :=
        Int.add_mul_emod_self_left _ _ _
      rw [mul_one] at h3
      rw [← h3]
      exact Int.emod_eq_of_lt (by omega) (by omega)
    have e2 : (b - a - 1) % N = b - a - 1 := Int.emod_eq_of_lt (by omega) (by omega)
    omega

/-- Accounting identity at the level of the `Nat`-valued queries. -/
theorem nb_entries_add_nb_free (N P C : Nat) (hP : P < N) (hC : C < N) :
    ringbuf_nb_entries N P C + ringbuf_nb_free N P C + 1 = N := by
  have hN : 0 < (N : Int) := by exact_mod_cast Nat.pos_of_ne_zero (by omega)
  have hid := emod_ring_identity (N : Int) (P : Int) (C : Int) hN
    (by exact_mod_cast Nat.zero_le P) (by exact_mod_cast hP)
    (by exact_mod_cast Nat.zero_le C) (by exact_mod_cast hC)
  have h1 : 0 ≤ ((P : Int) - (C : Int)) % (N : Int) := Int.emod_nonneg _ (by omega)
  have h2 : 0 ≤ ((C : Int) - (P : Int) - 1) % (N : Int) := Int.emod_nonneg _ (by omega)
  unfold ringbuf_nb_entries ringbuf_nb_free
  omega

/-- C5: at any quiescent moment (both tails equal to their heads, every
counter strictly below the capacity, capacity at least 1), the words readable
by consumers, the words reservable by producers, and the one permanently
reserved word account for the whole data area:
nb_entries + nb_free + 1 = nb_words. -/
theorem ringbuf_quiescent_accounting (N Ph Pt Ch Ct : Nat)
    (hq1 : Pt = Ph) (hq2 : Ct = Ch)
    (h1 : Ph < N) (h2 : Pt < N) (h3 : Ch < N) (h4 : Ct < N) (hN : 1 ≤ N) :
    ringbuf_nb_entries N Pt Ch + ringbuf_nb_free N Ph Ct + 1 = N := by
  rw [hq1, hq2]
  exact nb_entries_add_nb_free N Ph Ch h1 h3

/-- C5 witness: capacity 8, heads and tails at 3 and 1:
nb_entries = 2, nb_free = 5, and 2 + 5 + 1 = 8. -/
theorem ringbuf_quiescent_accounting_witness :
    ringbuf_nb_entries 8 3 1 + ringbuf_nb_free 8 3 1 + 1 = 8 :=
  ringbuf_quiescent_accounting 8 3 3 1 1 rfl rfl (by decide) (by decide) (by decide)
    (by decide) (by decide)

/-- C6: when a quiescent buffer already holds nb_words - 1 words of message
footprint (the maximum, since one word of the data area is never used), every
further enqueue, of any payload length at least 1, fails with
NOT_ENOUGH_SPACE; the failure happens before any counter or data word is
touched, so the buffer is unchanged. -/
theorem ringbuf_enqueue_full_fails (rb : Ringbuf) (msg : List Nat)
    (hq1 : rb.prod_tail = rb.prod_head) (hq2 : rb.cons_tail = rb.cons_head)
    (h1 : rb.prod_head < rb.nb_words) (h2 : rb.cons_head < rb.nb_words)
    (hfull : ringbuf_nb_entries rb.nb_words rb.prod_tail rb.cons_head
        = rb.nb_words - 1)
    (hL : 1 ≤ msg.length) :
    ringbuf_enqueue rb msg = .error .NOT_ENOUGH_SPACE := by
  have hacc := nb_entries_add_nb_free rb.nb_words rb.prod_head rb.cons_head h1 h2
  rw [hq1] at hfull
  have hfree : ringbuf_nb_free rb.nb_words rb.prod_head rb.cons_head = 0 := by omega
  unfold ringbuf_enqueue
  rw [hq2, hfree]
  simp

/-- C6 witness: scenario E3 — capacity 8 with a 7-word footprint already
stored (prod counters at 7, cons counters at 0): enqueuing the one-word
message [5] fails with NOT_ENOUGH_SPACE. -/
theorem ringbuf_enqueue_full_fails_witness :
    ringbuf_enqueue ⟨8, 7, 7, 0, 0, List.replicate 8 0⟩ [5]
      = .error .NOT_ENOUGH_SPACE :=
  ringbuf_enqueue_full_fails ⟨8, 7, 7, 0, 0, List.replicate 8 0⟩ [5] rfl rfl
    (by decide) (by decide) (by decide) (by decide)

theorem length_writeWords (ws : List Nat) (d : List Nat) (i : Nat) :
    (writeWords d i ws).length = d.length := by
  induction ws generalizing d i with
  | nil => rfl
  | cons w rest ih =>
    show (writeWords (d.set i w) (i + 1) rest).length = d.length
    rw [ih, List.length_set]

theorem writeWords_append (ws1 : List Nat) (d : List Nat) (i : Nat) (ws2 : List Nat) :
    writeWords d i (ws1 ++ ws2)
      = writeWords (writeWords d i ws1) (i + ws1.length) ws2 := by
  induction ws1 generalizing d i with
  | nil => simp [writeWords]
  | cons w rest ih =>
    show writeWords (d.set i w) (i + 1) (rest ++ ws2) = _
    rw [ih]
    have h1 : i + 1 + rest.length = i + (w :: rest).length := by
      simp
      omega
    rw [h1]
    rfl

theorem getD_set_self (d : List Nat) (i w : Nat) (h : i < d.length) :
    (d.set i w).getD i 0 = w := by
  induction d generalizing i with
  | nil => simp at h
  | cons a t ih =>
    cases i with
    | zero => rfl
    | succ j =>
      show (t.set j w).getD j 0 = w
      exact ih j (by simpa using h)

theorem getD_set_ne (d : List Nat) (i j w : Nat) (h : j ≠ i) :
    (d.set i w).getD j 0 = d.getD j 0 := by
  induction d generalizing i j with
  | nil => rfl
  | cons a t ih =>
    cases i with
    | zero =>
      cases j with
      | zero => exact absurd rfl h
      | succ k => rfl
    | succ i2 =>
      cases j with
      | zero => rfl
      | succ k =>
        show (t.set i2 w).getD k 0 = t.getD k 0
        exact ih i2 k (by omega)

theorem getD_writeWords_lt (ws : List Nat) (d : List Nat) (i j : Nat) (h : j < i) :
    (writeWords d i ws).getD j 0 = d.getD j 0 := by
  induction ws generalizing d i with
  | nil => rfl
  | cons w rest ih =>
    show (writeWords (d.set i w) (i + 1) rest).getD j 0 = d.getD j 0
    rw [ih (d.set i w) (i + 1) (by omega)]
    exact getD_set_ne d i j w (by omega)

theorem getD_writeWords_get (ws : List Nat) (d : List Nat) (i k : Nat)
    (hk : k < ws.length) (hb : i + ws.length ≤ d.length) :
    (writeWords d i ws).getD (i + k) 0 = ws.getD k 0 := by
  induction ws generalizing d i k with
  | nil => simp at hk
  | cons w rest ih =>
    cases k with
    | zero =>
      show (writeWords (d.set i w) (i + 1) rest).getD i 0 = w
      rw [getD_writeWords_lt rest (d.set i w) (i + 1) i (by omega)]
      exact getD_set_self d i w (by simp at hb; omega)
    | succ k2 =>
      show (writeWords (d.set i w) (i + 1) rest).getD (i + (k2 + 1)) 0
          = rest.getD k2 0
      have h1 : i + (k2 + 1) = (i + 1) + k2 := by omega
      rw [h1]
      exact ih (d.set i w) (i + 1) k2 (by simpa using hk)
        (by rw [List.length_set]; simp at hb; omega)

theorem readWords_eq (m : List Nat) (d : List Nat) (i : Nat)
    (h : ∀ k, k < m.length → d.getD (i + k) 0 = m.getD k 0) :
    readWords d i m.length = m := by
  induction m generalizing i with
  | nil => rfl
  | cons a t ih =>
    show d.getD i 0 :: readWords d (i + 1) t.length = a :: t
    have h0 : d.getD i 0 = a := by
      have h1 := h 0 (by simp)
      simpa using h1
    rw [h0, ih (i + 1)]
    intro k hk
    have h2 := h (k + 1) (by simp; omega)
    have h3 : i + (k + 1) = (i + 1) + k := by omega
    rw [h3] at h2
    simpa using h2

theorem getD_append_lt (xs ys : List Nat) (k : Nat) (h : k < xs.length) :
    (xs ++ ys).getD k 0 = xs.getD k 0 := by
  induction xs generalizing k with
  | nil => simp at h
  | cons a t ih =>
    cases k with
    | zero => rfl
    | succ k2 =>
      show (t ++ ys).getD k2 0 = t.getD k2 0
      exact ih k2 (by simpa using h)

theorem getD_append_right (xs ys : List Nat) (k : Nat) :
    (xs ++ ys).getD (xs.length + k) 0 = ys.getD k 0 := by
  induction xs with
  | nil => simp
  | cons a t ih =>
    have h1 : (a :: t).length + k = (t.length + k) + 1 := by
      simp
      omega
    rw [h1]
    show (t ++ ys).getD (t.length + k) 0 = ys.getD k 0
    exact ih

theorem length_encodeMsgs (msgs : List (List Nat)) :
    (encodeMsgs msgs).length = (msgs.map (fun m => m.length + 1)).sum := by
  induction msgs with
  | nil => rfl
  | cons m rest ih =>
    show ((m.length :: m) ++ encodeMsgs rest).length = _
    simp [ih]
    omega

theorem nb_free_zero_tail (N Ph : Nat) (h : Ph < N) :
    ringbuf_nb_free N Ph 0 = N - Ph - 1 := by
  unfold ringbuf_nb_free
  simp only [Nat.cast_zero]
  have h1 : ((0 : Int) - Ph - 1 + N * 1) % N = ((0 : Int) - Ph - 1) % N :=
    Int.add_mul_emod_self_left _ _ _
  rw [mul_one] at h1
  rw [← h1, Int.emod_eq_of_lt (by omega) (by omega)]
  omega

theorem enqueueAll_linear (msgs : List (List Nat)) (rb : Ringbuf)
    (hch : rb.cons_head = 0) (hct : rb.cons_tail = 0)
    (hpt : rb.prod_tail = rb.prod_head)
    (hd : rb.data.length = rb.nb_words)
    (hfit : rb.prod_head + (encodeMsgs msgs).length + 1 ≤ rb.nb_words) :
    enqueueAll rb msgs = .ok { rb with
      prod_head := rb.prod_head + (encodeMsgs msgs).length,
      prod_tail := rb.prod_head + (encodeMsgs msgs).length,
      data := writeWords rb.data rb.prod_head (encodeMsgs msgs) } := by
  induction msgs generalizing rb with
  | nil =>
    obtain ⟨nw, ph, pt, ch, ct, d⟩ := rb
    simp only at hch hct hpt hd hfit ⊢
    subst hch hct hpt
    show Except.ok _ = _
    simp [encodeMsgs, writeWords]
  | cons m rest ih =>
    obtain ⟨nw, ph, pt, ch, ct, d⟩ := rb
    simp only at hch hct hpt hd hfit ⊢
    subst hch hct hpt
    have hel : (encodeMsgs (m :: rest)).length
        = m.length + 1 + (encodeMsgs rest).length := by
      show ((m.length :: m) ++ encodeMsgs rest).length = _
      simp
      omega
    have hpN : pt < nw := by omega
    have hfree : ringbuf_nb_free nw pt 0 = nw - pt - 1 :=
      nb_free_zero_tail nw pt hpN
    have hcond1 : ¬ (ringbuf_nb_free nw pt 0 < m.length + 1) := by
      rw [hfree]
      omega
    have hcond2 : pt + m.length + 1 ≤ nw := by omega
    have hmod : (pt + m.length + 1) % nw = pt + m.length + 1 :=
      Nat.mod_eq_of_lt (by omega)
    have henq : ringbuf_enqueue ⟨nw, pt, pt, 0, 0, d⟩ m
        = .ok ⟨nw, pt + m.length + 1, pt + m.length + 1, 0, 0,
               writeWords d pt (m.length :: m)⟩ := by
      simp only [ringbuf_enqueue]
      rw [if_neg hcond1, if_pos hcond2, hmod]
    show (match ringbuf_enqueue ⟨nw, pt, pt, 0, 0, d⟩ m with
          | .ok rb2 => enqueueAll rb2 rest
          | .error e => .error e) = _
    rw [henq]
    show enqueueAll
        ⟨nw, pt + m.length + 1, pt + m.length + 1, 0, 0,
         writeWords d pt (m.length :: m)⟩ rest = _
    rw [ih ⟨nw, pt + m.length + 1, pt + m.length + 1, 0, 0,
          writeWords d pt (m.length :: m)⟩ rfl rfl rfl
      (by show (writeWords d pt (m.length :: m)).length = nw
          rw [length_writeWords]
          exact hd)
      (by show pt + m.length + 1 + (encodeMsgs rest).length + 1 ≤ nw
          omega)]
    have hdata : writeWords (writeWords d pt (m.length :: m))
          (pt + m.length + 1) (encodeMsgs rest)
        = writeWords d pt (encodeMsgs (m :: rest)) := by
      have h2 : encodeMsgs (m :: rest) = (m.length :: m) ++ encodeMsgs rest := rfl
      rw [h2, writeWords_append]
      have h3 : pt + (m.length :: m).length = pt + m.length + 1 := by
        simp
        omega
      rw [h3]
    rw [hdata, hel]
    have h4 : pt + (m.length + 1 + (encodeMsgs rest).length)
        = pt + m.length + 1 + (encodeMsgs rest).length := by omega
    rw [h4]

theorem dequeueAll_encoded (msgs : List (List Nat)) (rb : Ringbuf)
    (hq : rb.cons_head + (encodeMsgs msgs).length = rb.prod_tail)
    (hlt : rb.prod_tail < rb.nb_words)
    (hN : rb.nb_words < 4294967296)
    (hdata : ∀ k, k < (encodeMsgs msgs).length →
        rb.data.getD (rb.cons_head + k) 0 = (encodeMsgs msgs).getD k 0) :
    dequeueAll rb msgs.length = .ok msgs := by
  induction msgs generalizing rb with
  | nil => rfl
  | cons m rest ih =>
    obtain ⟨nw, ph, pt, ch, ct, d⟩ := rb
    simp only at hq hlt hN hdata ⊢
    have hel : (encodeMsgs (m :: rest)).length
        = m.length + 1 + (encodeMsgs rest).length := by
      show ((m.length :: m) ++ encodeMsgs rest).length = _
      simp
      omega
    have hne : ¬ (ch = pt) := by omega
    have hfirst : d.getD ch 0 = m.length := by
      have h1 := hdata 0 (by omega)
      simpa [encodeMsgs] using h1
    have hsen : ¬ (m.length = sentinel) := by
      unfold sentinel
      omega
    have hmod : (ch + m.length + 1) % nw = ch + m.length + 1 :=
      Nat.mod_eq_of_lt (by omega)
    have hmsg : readWords d (ch + 1) m.length = m := by
      apply readWords_eq
      intro k hk
      have h1 := hdata (1 + k) (by omega)
      have h2 : (encodeMsgs (m :: rest)).getD (1 + k) 0 = m.getD k 0 := by
        show ((m.length :: m) ++ encodeMsgs rest).getD (1 + k) 0 = m.getD k 0
        rw [getD_append_lt (m.length :: m) (encodeMsgs rest) (1 + k)
          (by simp; omega)]
        have h5 : 1 + k = k + 1 := by omega
        rw [h5]
        show m.getD k 0 = m.getD k 0
        rfl
      rw [h2] at h1
      have h4 : ch + (1 + k) = ch + 1 + k := by omega
      rw [h4] at h1
      exact h1
    have hdeq : ringbuf_dequeue ⟨nw, ph, pt, ch, ct, d⟩
        = .ok (⟨nw, ph, pt, ch + m.length + 1, ch + m.length + 1, d⟩, m) := by
      simp only [ringbuf_dequeue]
      rw [if_neg hne, hfirst, if_neg hsen, hmod, hmsg]
    show (match ringbuf_dequeue ⟨nw, ph, pt, ch, ct, d⟩ with
          | .ok (rb2, msg) =>
            (match dequeueAll rb2 rest.length with
             | .ok ms => Except.ok (msg :: ms)
             | .error e => Except.error e)
          | .error e => Except.error e) = Except.ok (m :: rest)
    rw [hdeq]
    have hrec : dequeueAll ⟨nw, ph, pt, ch + m.length + 1, ch + m.length + 1, d⟩
        rest.length = .ok rest := by
      refine ih ⟨nw, ph, pt, ch + m.length + 1, ch + m.length + 1, d⟩ ?_ hlt hN ?_
      · show ch + m.length + 1 + (encodeMsgs rest).length = pt
        omega
      · intro k hk
        show d.getD (ch + m.length + 1 + k) 0 = (encodeMsgs rest).getD k 0
        have h1 := hdata (m.length + 1 + k) (by omega)
        have h2 : (encodeMsgs (m :: rest)).getD (m.length + 1 + k) 0
            = (encodeMsgs rest).getD k 0 := by
          show ((m.length :: m) ++ encodeMsgs rest).getD (m.length + 1 + k) 0 = _
          have h3 : m.length + 1 + k = (m.length :: m).length + k := by
            simp
          rw [h3, getD_append_right]
        rw [h2] at h1
        have h4 : ch + (m.length + 1 + k) = ch + m.length + 1 + k := by omega
        rw [h4] at h1
        exact h1
    show (match dequeueAll ⟨nw, ph, pt, ch + m.length + 1, ch + m.length + 1, d⟩
            rest.length with
          | .ok ms => Except.ok (m :: ms)
          | .error e => Except.error e) = Except.ok (m :: rest)
    rw [hrec]

/-- C4: for every sequence of messages, each of payload length between 1 and
nb_words - 2, whose total footprint (the sum over the messages of length + 1)
is at most nb_words - 1, enqueuing all of them in order on a freshly created
buffer and then dequeuing as many times returns exactly the same messages,
word for word, in the same order. -/
theorem ringbuf_round_trip (N : Nat) (msgs : List (List Nat))
    (hN : N < 4294967296)
    (hm : ∀ m ∈ msgs, 1 ≤ m.length ∧ m.length ≤ N - 2)
    (hfit : (msgs.map (fun m => m.length + 1)).sum ≤ N - 1) :
    roundTrip N msgs = .ok msgs := by
  cases msgs with
  | nil => rfl
  | cons m rest =>
    have h1 := hm m (by simp)
    have hN3 : 3 ≤ N := by omega
    have hlen : (encodeMsgs (m :: rest)).length ≤ N - 1 := by
      rw [length_encodeMsgs]
      exact hfit
    have hA := enqueueAll_linear (m :: rest) (freshRingbuf N) rfl rfl rfl
      (by show (List.replicate N 0).length = N
          simp)
      (by show 0 + (encodeMsgs (m :: rest)).length + 1 ≤ N
          omega)
    simp only [roundTrip, hA]
    refine dequeueAll_encoded (m :: rest) _ ?_ ?_ ?_ ?_
    · show 0 + (encodeMsgs (m :: rest)).length = 0 + (encodeMsgs (m :: rest)).length
      rfl
    · show 0 + (encodeMsgs (m :: rest)).length < N
      omega
    · exact hN
    · intro k hk
      show (writeWords (List.replicate N 0) 0 (encodeMsgs (m :: rest))).getD
          (0 + k) 0 = (encodeMsgs (m :: rest)).getD k 0
      refine getD_writeWords_get (encodeMsgs (m :: rest)) (List.replicate N 0) 0 k hk ?_
      simp
      omega

/-- C4 witness: scenario E2 — on a capacity-8 buffer, enqueuing [1,2,3] then
[4] and dequeuing twice returns [1,2,3] then [4]. -/
theorem ringbuf_round_trip_witness :
    roundTrip 8 [[1, 2, 3], [4]] = .ok [[1, 2, 3], [4]] :=
  ringbuf_round_trip 8 [[1, 2, 3], [4]] (by decide) (by decide) (by decide)
